import Mathlib

/-!
# Verification of the base64mix transcoding engine (src/base64mix.h)

Shallow embedding of the buffer-based Base64 codec from `src/base64mix.h`.

Conventions of the embedding:
* A C byte buffer (`const char *` / `uint8_t *` plus a length) is a
  `List Nat` whose members are the byte values; a `uint8_t` load is
  modelled by reducing the element modulo 256.
* `size_t` arithmetic is `Nat` arithmetic; where the C computation can
  wrap around, the wraparound is modelled by an explicit `% 2 ^ 64`.
  Two sites can wrap: the unchecked multiplication in
  `b64m_decoded_len`, and the encode capacity threshold
  `b64m_encoded_len(srclen) + 1`, which wraps to 0 when
  `b64m_encoded_len` returns `SIZE_MAX`.  `SIZE_MAX` is `2 ^ 64 - 1`.
* Bit operations on machine words are translated to arithmetic:
  `x << k` is `x * 2 ^ k`, `x >> k` is `x / 2 ^ k`, `x & 0x3f` is
  `x % 64`, and `a | b` on provably disjoint bit fields is `a + b`.
  The validity test `(d0 | d1 | ...) > 63` on 8-bit values holds iff
  some operand exceeds 63, and is translated to that disjunction.
* The destination buffer is modelled by its capacity `dstlen : Nat`;
  a successful call returns the list of bytes written (excluding the
  trailing `'\0'` terminator byte, which the returned C length also
  excludes).  An error return (`SIZE_MAX` plus `errno` in C) is an
  `Except.error` carrying the error kind; every error kind corresponds
  to one distinct `return SIZE_MAX` site of the C function, so the
  pair (errno value, return site) is preserved.  The C code performs
  its capacity check before any store to `dst`, so an error result of
  the capacity check leaves the destination untouched.
* `NULL`-pointer arguments have no counterpart in this embedding
  (a `List Nat` is always a valid buffer), so the `!src || !dst`
  checks of the C code are not modelled.
-/

/-- Error kinds of the codec.  Each constructor corresponds to one
`errno` value together with the program point that sets it in
`src/base64mix.h`:
* `invalidArgument`    : `EINVAL` at the argument check (`srclen % 4 == 1`).
* `insufficientSpace`  : `ENOSPC` at the capacity check.
* `invalidPadding`     : `EINVAL` inside the trailing-`'='` scan.
* `invalidCharacter`   : `EINVAL` at a reverse-table lookup `> 63`.
* `illegalSequence`    : `EILSEQ` at the RFC 4648 low-bit tail checks.
* `sizeOverflow`       : `ERANGE` in `b64m_encode` when
  `b64m_encoded_len` reports overflow. -/
inductive B64Error where
  | invalidArgument
  | insufficientSpace
  | invalidPadding
  | invalidCharacter
  | illegalSequence
  | sizeOverflow
  deriving DecidableEq, Repr

/-- `SIZE_MAX` for the 64-bit `size_t` of the reference platform. -/
def SIZE_MAX : Nat := 2 ^ 64 - 1

/-- Standard Base64 forward table `BASE64MIX_STDENC` (ASCII codes):
`'A'..'Z'`, `'a'..'z'`, `'0'..'9'`, `'+'`, `'/'`. -/
def BASE64MIX_STDENC : List Nat :=
  [65, 66, 67, 68, 69, 70, 71, 72, 73, 74, 75, 76, 77,
   78, 79, 80, 81, 82, 83, 84, 85, 86, 87, 88, 89, 90,
   97, 98, 99, 100, 101, 102, 103, 104, 105, 106, 107, 108, 109,
   110, 111, 112, 113, 114, 115, 116, 117, 118, 119, 120, 121, 122,
   48, 49, 50, 51, 52, 53, 54, 55, 56, 57, 43, 47]

/-- URL-safe Base64 forward table `BASE64MIX_URLENC` (ASCII codes):
same as standard but ending `'-'`, `'_'`. -/
def BASE64MIX_URLENC : List Nat :=
  [65, 66, 67, 68, 69, 70, 71, 72, 73, 74, 75, 76, 77,
   78, 79, 80, 81, 82, 83, 84, 85, 86, 87, 88, 89, 90,
   97, 98, 99, 100, 101, 102, 103, 104, 105, 106, 107, 108, 109,
   110, 111, 112, 113, 114, 115, 116, 117, 118, 119, 120, 121, 122,
   48, 49, 50, 51, 52, 53, 54, 55, 56, 57, 45, 95]

/-- Standard reverse table `BASE64MIX_STDDEC`: 256 entries, `0xFF`
(255) marks an invalid byte.  Transcribed entry by entry from the C
array (16 entries per row, row `r` holding indices `16r .. 16r+15`):
`'+'` (43) `↦ 62`, `'/'` (47) `↦ 63`, `'0'..'9'` (48..57) `↦ 52..61`,
`'A'..'Z'` (65..90) `↦ 0..25`, `'a'..'z'` (97..122) `↦ 26..51`. -/
def BASE64MIX_STDDEC : List Nat :=
  [255, 255, 255, 255, 255, 255, 255, 255, 255, 255, 255, 255, 255, 255, 255, 255,
   255, 255, 255, 255, 255, 255, 255, 255, 255, 255, 255, 255, 255, 255, 255, 255,
   255, 255, 255, 255, 255, 255, 255, 255, 255, 255, 255, 62, 255, 255, 255, 63,
   52, 53, 54, 55, 56, 57, 58, 59, 60, 61, 255, 255, 255, 255, 255, 255,
   255, 0, 1, 2, 3, 4, 5, 6, 7, 8, 9, 10, 11, 12, 13, 14,
   15, 16, 17, 18, 19, 20, 21, 22, 23, 24, 25, 255, 255, 255, 255, 255,
   255, 26, 27, 28, 29, 30, 31, 32, 33, 34, 35, 36, 37, 38, 39, 40,
   41, 42, 43, 44, 45, 46, 47, 48, 49, 50, 51, 255, 255, 255, 255, 255,
   255, 255, 255, 255, 255, 255, 255, 255, 255, 255, 255, 255, 255, 255, 255, 255,
   255, 255, 255, 255, 255, 255, 255, 255, 255, 255, 255, 255, 255, 255, 255, 255,
   255, 255, 255, 255, 255, 255, 255, 255, 255, 255, 255, 255, 255, 255, 255, 255,
   255, 255, 255, 255, 255, 255, 255, 255, 255, 255, 255, 255, 255, 255, 255, 255,
   255, 255, 255, 255, 255, 255, 255, 255, 255, 255, 255, 255, 255, 255, 255, 255,
   255, 255, 255, 255, 255, 255, 255, 255, 255, 255, 255, 255, 255, 255, 255, 255,
   255, 255, 255, 255, 255, 255, 255, 255, 255, 255, 255, 255, 255, 255, 255, 255,
   255, 255, 255, 255, 255, 255, 255, 255, 255, 255, 255, 255, 255, 255, 255, 255]

/-- URL-safe reverse table `BASE64MIX_URLDEC`: like the standard one
but `'-'` (45) `↦ 62` and `'_'` (95) `↦ 63`. -/
def BASE64MIX_URLDEC : List Nat :=
  [255, 255, 255, 255, 255, 255, 255, 255, 255, 255, 255, 255, 255, 255, 255, 255,
   255, 255, 255, 255, 255, 255, 255, 255, 255, 255, 255, 255, 255, 255, 255, 255,
   255, 255, 255, 255, 255, 255, 255, 255, 255, 255, 255, 255, 255, 62, 255, 255,
   52, 53, 54, 55, 56, 57, 58, 59, 60, 61, 255, 255, 255, 255, 255, 255,
   255, 0, 1, 2, 3, 4, 5, 6, 7, 8, 9, 10, 11, 12, 13, 14,
   15, 16, 17, 18, 19, 20, 21, 22, 23, 24, 25, 255, 255, 255, 255, 63,
   255, 26, 27, 28, 29, 30, 31, 32, 33, 34, 35, 36, 37, 38, 39, 40,
   41, 42, 43, 44, 45, 46, 47, 48, 49, 50, 51, 255, 255, 255, 255, 255,
   255, 255, 255, 255, 255, 255, 255, 255, 255, 255, 255, 255, 255, 255, 255, 255,
   255, 255, 255, 255, 255, 255, 255, 255, 255, 255, 255, 255, 255, 255, 255, 255,
   255, 255, 255, 255, 255, 255, 255, 255, 255, 255, 255, 255, 255, 255, 255, 255,
   255, 255, 255, 255, 255, 255, 255, 255, 255, 255, 255, 255, 255, 255, 255, 255,
   255, 255, 255, 255, 255, 255, 255, 255, 255, 255, 255, 255, 255, 255, 255, 255,
   255, 255, 255, 255, 255, 255, 255, 255, 255, 255, 255, 255, 255, 255, 255, 255,
   255, 255, 255, 255, 255, 255, 255, 255, 255, 255, 255, 255, 255, 255, 255, 255,
   255, 255, 255, 255, 255, 255, 255, 255, 255, 255, 255, 255, 255, 255, 255, 255]

/-- Mixed reverse table `BASE64MIX_DEC`: accepts both punctuation
pairs, `'+'` (43) and `'-'` (45) `↦ 62`, `'/'` (47) and `'_'` (95)
`↦ 63`. -/
def BASE64MIX_DEC : List Nat :=
  [255, 255, 255, 255, 255, 255, 255, 255, 255, 255, 255, 255, 255, 255, 255, 255,
   255, 255, 255, 255, 255, 255, 255, 255, 255, 255, 255, 255, 255, 255, 255, 255,
   255, 255, 255, 255, 255, 255, 255, 255, 255, 255, 255, 62, 255, 62, 255, 63,
   52, 53, 54, 55, 56, 57, 58, 59, 60, 61, 255, 255, 255, 255, 255, 255,
   255, 0, 1, 2, 3, 4, 5, 6, 7, 8, 9, 10, 11, 12, 13, 14,
   15, 16, 17, 18, 19, 20, 21, 22, 23, 24, 25, 255, 255, 255, 255, 63,
   255, 26, 27, 28, 29, 30, 31, 32, 33, 34, 35, 36, 37, 38, 39, 40,
   41, 42, 43, 44, 45, 46, 47, 48, 49, 50, 51, 255, 255, 255, 255, 255,
   255, 255, 255, 255, 255, 255, 255, 255, 255, 255, 255, 255, 255, 255, 255, 255,
   255, 255, 255, 255, 255, 255, 255, 255, 255, 255, 255, 255, 255, 255, 255, 255,
   255, 255, 255, 255, 255, 255, 255, 255, 255, 255, 255, 255, 255, 255, 255, 255,
   255, 255, 255, 255, 255, 255, 255, 255, 255, 255, 255, 255, 255, 255, 255, 255,
   255, 255, 255, 255, 255, 255, 255, 255, 255, 255, 255, 255, 255, 255, 255, 255,
   255, 255, 255, 255, 255, 255, 255, 255, 255, 255, 255, 255, 255, 255, 255, 255,
   255, 255, 255, 255, 255, 255, 255, 255, 255, 255, 255, 255, 255, 255, 255, 255,
   255, 255, 255, 255, 255, 255, 255, 255, 255, 255, 255, 255, 255, 255, 255, 255]

/-- `b64m_encoded_len`: number of 3-byte blocks (partial block counts
as one), checked against `SIZE_MAX / 4` before multiplying by 4;
`SIZE_MAX` signals overflow. -/
def b64m_encoded_len (len : Nat) : Nat :=
  -- size_t block = len / 3 + (len % 3 != 0);
  let block := len / 3 + (if len % 3 ≠ 0 then 1 else 0)
  if block > SIZE_MAX / 4 then SIZE_MAX else block * 4

/-- `b64m_decoded_len`: `(enclen * 3) / 4` computed in `size_t`
arithmetic, i.e. the product wraps modulo `2 ^ 64`. -/
def b64m_decoded_len (enclen : Nat) : Nat :=
  enclen * 3 % 2 ^ 64 / 4

/-- `ENCODE_BLOCK`: pack three bytes into a 24-bit value `v` and emit
the four table symbols of its 6-bit fields.  In C:
`out[k] = enctbl[(v >> (18 - 6k)) & 0x3f]`. -/
def encodeBlock (enctbl : List Nat) (b0 b1 b2 : Nat) : List Nat :=
  -- v = (cur[0] << 16) | (cur[1] << 8) | cur[2]  (disjoint byte fields)
  let v := b0 % 256 * 65536 + b1 % 256 * 256 + b2 % 256
  [enctbl.getD (v / 262144 % 64) 0, enctbl.getD (v / 4096 % 64) 0,
   enctbl.getD (v / 64 % 64) 0, enctbl.getD (v % 64) 0]

/-- Main loop plus tail of `b64m_encode_to_buffer`.  The C code first
runs a 4-block-unrolled loop over 12-byte chunks and then a plain loop
over the remaining full 3-byte blocks; both emit, per 3-byte block,
exactly `ENCODE_BLOCK` of that block, so together they process every
complete 3-byte block in order, which is this recursion.  The final
0-,1- or 2-byte remainder is handled as in the C tail, padding with
`'='` (61) exactly when the table is `BASE64MIX_STDENC` (the C code
compares the table pointer against `BASE64MIX_STDENC`; the two tables
differ in content, so pointer identity coincides with list equality on
the valid argument set). -/
def encodeChunks (enctbl : List Nat) : List Nat → List Nat
  | b0 :: b1 :: b2 :: rest =>
      encodeBlock enctbl b0 b1 b2 ++ encodeChunks enctbl rest
  | [b0, b1] =>
      -- val = (cur[0] << 16) | (cur[1] << 8); emit three symbols
      let v := b0 % 256 * 65536 + b1 % 256 * 256
      [enctbl.getD (v / 262144 % 64) 0, enctbl.getD (v / 4096 % 64) 0,
       enctbl.getD (v / 64 % 64) 0] ++
      (if enctbl = BASE64MIX_STDENC then [61] else [])
  | [b0] =>
      -- val = cur[0] << 16; emit two symbols
      let v := b0 % 256 * 65536
      [enctbl.getD (v / 262144 % 64) 0, enctbl.getD (v / 4096 % 64) 0] ++
      (if enctbl = BASE64MIX_STDENC then [61, 61] else [])
  | [] => []

/-- `b64m_encode_to_buffer`: capacity check (the `+ 1` reserves room
for the terminator byte), empty-input early return, then the encoding
loops.  The capacity check precedes every store to `dst`, so the
`insufficientSpace` error leaves the destination untouched.  The
threshold `b64m_encoded_len(srclen) + 1` is computed in `size_t`: when
`b64m_encoded_len` returns `SIZE_MAX` (input too long to encode) the
`+ 1` wraps to 0, the check can never fire, and the function proceeds
to write whatever the capacity. -/
def b64m_encode_to_buffer (src : List Nat) (dstlen : Nat)
    (enctbl : List Nat) : Except B64Error (List Nat) :=
  -- if (dstlen < (b64m_encoded_len(srclen) + 1)), both in size_t
  if dstlen < (b64m_encoded_len src.length + 1) % 2 ^ 64 then
    .error .insufficientSpace
  else if src.length = 0 then
    .ok []
  else
    .ok (encodeChunks enctbl src)

/-- Leading run of `'='` (61) characters of a list. -/
def leadPad : List Nat → Nat
  | c :: rest => if c % 256 = 61 then leadPad rest + 1 else 0
  | [] => 0

/-- Number of trailing `'='` characters, as counted by the
back-to-front scan of `b64m_decode_to_buffer` (`npad`).  The C loop
aborts with `EINVAL` as soon as the count reaches 3; the caller below
compares the full trailing run against 2, which triggers exactly when
the C loop aborts. -/
def padCount (l : List Nat) : Nat := leadPad l.reverse

/-- Tail handling of `b64m_decode_to_buffer` (called with at most 3
remaining characters): a 3-character tail yields 2 bytes after the
low-2-bit check, a 2-character tail yields 1 byte after the low-4-bit
check, and a lone character (or nothing) yields nothing. -/
def decodeTail (dectbl : List Nat) : List Nat → Except B64Error (List Nat)
  | [c0, c1, c2] =>
      let d0 := dectbl.getD (c0 % 256) 255
      let d1 := dectbl.getD (c1 % 256) 255
      let d2 := dectbl.getD (c2 % 256) 255
      -- if ((d0 | d1 | d2) > 63)
      if d0 > 63 ∨ d1 > 63 ∨ d2 > 63 then .error .invalidCharacter
      -- if ((d2 & 0x03) != 0)
      else if d2 % 4 ≠ 0 then .error .illegalSequence
      else
        -- val = (d0 << 12) | (d1 << 6) | d2 (disjoint 6-bit fields);
        -- ptr[0] = (uint8_t)(val >> 10); ptr[1] = (uint8_t)(val >> 2)
        let val := d0 * 4096 + d1 * 64 + d2
        .ok [val / 1024 % 256, val / 4 % 256]
  | [c0, c1] =>
      let d0 := dectbl.getD (c0 % 256) 255
      let d1 := dectbl.getD (c1 % 256) 255
      -- if ((d0 | d1) > 63)
      if d0 > 63 ∨ d1 > 63 then .error .invalidCharacter
      -- if ((d1 & 0x0F) != 0)
      else if d1 % 16 ≠ 0 then .error .illegalSequence
      else
        -- val = (d0 << 6) | d1; ptr[0] = (uint8_t)(val >> 4)
        let val := d0 * 64 + d1
        .ok [val / 16 % 256]
  | _ => .ok []

/-- Block loops of `b64m_decode_to_buffer` on the padding-stripped
input: first the 8-character loop (8 symbols → 6 bytes via a 64-bit
accumulator), then — at most once, since fewer than 8 characters
remain — the 4-character loop (4 symbols → 3 bytes via a 32-bit
accumulator), then the tail.  The 64-bit combination
`v = (d0 << 58) | (d1 << 52) | ... | (d7 << 16)` has disjoint 6-bit
fields (each `dk ≤ 63` after the validity test), so `|` is `+`; the
extracted bytes are `(uint8_t)(v >> 56), ..., (uint8_t)(v >> 16)`.
Likewise `v = (d1 << 26) | (d2 << 20) | (d3 << 14) | (d4 << 8)` in the
4-character loop with bytes `(uint8_t)(v >> 24), (v >> 16), (v >> 8)`. -/
def decodeBlocks (dectbl : List Nat) : List Nat → Except B64Error (List Nat)
  | c0 :: c1 :: c2 :: c3 :: c4 :: c5 :: c6 :: c7 :: rest =>
      let d0 := dectbl.getD (c0 % 256) 255
      let d1 := dectbl.getD (c1 % 256) 255
      let d2 := dectbl.getD (c2 % 256) 255
      let d3 := dectbl.getD (c3 % 256) 255
      let d4 := dectbl.getD (c4 % 256) 255
      let d5 := dectbl.getD (c5 % 256) 255
      let d6 := dectbl.getD (c6 % 256) 255
      let d7 := dectbl.getD (c7 % 256) 255
      -- if ((d0 | d1 | d2 | d3 | d4 | d5 | d6 | d7) > 63)
      if d0 > 63 ∨ d1 > 63 ∨ d2 > 63 ∨ d3 > 63 ∨
         d4 > 63 ∨ d5 > 63 ∨ d6 > 63 ∨ d7 > 63 then
        .error .invalidCharacter
      else
        let v := d0 * 2 ^ 58 + d1 * 2 ^ 52 + d2 * 2 ^ 46 + d3 * 2 ^ 40 +
                 d4 * 2 ^ 34 + d5 * 2 ^ 28 + d6 * 2 ^ 22 + d7 * 2 ^ 16
        match decodeBlocks dectbl rest with
        | .ok bytes =>
            .ok (v / 2 ^ 56 % 256 :: v / 2 ^ 48 % 256 :: v / 2 ^ 40 % 256 ::
                 v / 2 ^ 32 % 256 :: v / 2 ^ 24 % 256 :: v / 2 ^ 16 % 256 ::
                 bytes)
        | .error e => .error e
  | c0 :: c1 :: c2 :: c3 :: rest =>
      let d1 := dectbl.getD (c0 % 256) 255
      let d2 := dectbl.getD (c1 % 256) 255
      let d3 := dectbl.getD (c2 % 256) 255
      let d4 := dectbl.getD (c3 % 256) 255
      -- if ((d1 | d2 | d3 | d4) > 63)
      if d1 > 63 ∨ d2 > 63 ∨ d3 > 63 ∨ d4 > 63 then
        .error .invalidCharacter
      else
        let v := d1 * 2 ^ 26 + d2 * 2 ^ 20 + d3 * 2 ^ 14 + d4 * 2 ^ 8
        match decodeTail dectbl rest with
        | .ok bytes =>
            .ok (v / 2 ^ 24 % 256 :: v / 2 ^ 16 % 256 :: v / 2 ^ 8 % 256 ::
                 bytes)
        | .error e => .error e
  | rest => decodeTail dectbl rest

/-- `b64m_decode_to_buffer`: argument check (`srclen % 4 == 1`),
capacity check, empty-input early return, trailing-padding scan with
its two `EINVAL` exits, then the decoding loops on the first
`srclen - npad` characters. -/
def b64m_decode_to_buffer (src : List Nat) (dstlen : Nat)
    (dectbl : List Nat) : Except B64Error (List Nat) :=
  if src.length % 4 = 1 then .error .invalidArgument
  else if dstlen < b64m_decoded_len src.length + 1 then
    .error .insufficientSpace
  else if src.length = 0 then .ok []
  -- npad below is the C local variable of the same name
  else if padCount src > 2 then .error .invalidPadding
  else if padCount src ≠ 0 ∧ src.length % 4 ≠ 0 then .error .invalidPadding
  else decodeBlocks dectbl (src.take (src.length - padCount src))

/-- Allocating wrapper `b64m_encode`: compute the required capacity,
fail with `ERANGE` on overflow, otherwise run the buffer engine on a
buffer of exactly `b64m_encoded_len + 1` bytes and store the engine's
return value into the in/out length.  (Allocation is modelled as
always succeeding; `ENOMEM` is environment behaviour.)  The engine
cannot fail at this capacity, so the C code does not even test for it;
the unreachable error branch is mapped to the error for completeness
of the match. -/
def b64m_encode (src : List Nat) (enctbl : List Nat) :
    Except B64Error (List Nat × Nat) :=
  -- buflen = b64m_encoded_len(*len), then buflen += 1 before the call
  if b64m_encoded_len src.length = SIZE_MAX then .error .sizeOverflow
  else
    match b64m_encode_to_buffer src (b64m_encoded_len src.length + 1)
        enctbl with
    | .ok out => .ok (out, out.length)
    | .error e => .error e

/-- Reference form of the encoding loops without the padding step:
emits, per 3-byte block, `ENCODE_BLOCK`, and for a 1- or 2-byte
remainder only the data symbols.  `encodeChunks` is this plus the
trailing `'='` symbols when the table is the standard one; the split
form is used to reason about the decoder's padding scan. -/
def encodeCore (enctbl : List Nat) : List Nat → List Nat
  | b0 :: b1 :: b2 :: rest =>
      encodeBlock enctbl b0 b1 b2 ++ encodeCore enctbl rest
  | [b0, b1] =>
      let v := b0 % 256 * 65536 + b1 % 256 * 256
      [enctbl.getD (v / 262144 % 64) 0, enctbl.getD (v / 4096 % 64) 0,
       enctbl.getD (v / 64 % 64) 0]
  | [b0] =>
      let v := b0 % 256 * 65536
      [enctbl.getD (v / 262144 % 64) 0, enctbl.getD (v / 4096 % 64) 0]
  | [] => []

/-- Reference form of the decoding loops that processes one 4-symbol
group at a time (no 8-symbol unrolling).  The theorem
`decodeBlocks_eq_decodeSimple` below proves it equal to
`decodeBlocks`: the 8-character loop body of the C code emits, per 8
symbols, exactly the bytes of two consecutive 4-symbol groups. -/
def decodeSimple (dectbl : List Nat) : List Nat → Except B64Error (List Nat)
  | c0 :: c1 :: c2 :: c3 :: rest =>
      let d1 := dectbl.getD (c0 % 256) 255
      let d2 := dectbl.getD (c1 % 256) 255
      let d3 := dectbl.getD (c2 % 256) 255
      let d4 := dectbl.getD (c3 % 256) 255
      if d1 > 63 ∨ d2 > 63 ∨ d3 > 63 ∨ d4 > 63 then
        .error .invalidCharacter
      else
        let v := d1 * 2 ^ 26 + d2 * 2 ^ 20 + d3 * 2 ^ 14 + d4 * 2 ^ 8
        match decodeSimple dectbl rest with
        | .ok bytes =>
            .ok (v / 2 ^ 24 % 256 :: v / 2 ^ 16 % 256 :: v / 2 ^ 8 % 256 ::
                 bytes)
        | .error e => .error e
  | rest => decodeTail dectbl rest

/-- Allocating wrapper `b64m_decode`: run the buffer engine on a
buffer of exactly `b64m_decoded_len + 1` bytes; on engine failure free
the buffer and propagate the error (`errno` is left exactly as the
engine set it, and the caller's length is not written); on success
store the decoded length into the in/out length. -/
def b64m_decode (src : List Nat) (dectbl : List Nat) :
    Except B64Error (List Nat × Nat) :=
  -- buflen = b64m_decoded_len(*len) + 1
  match b64m_decode_to_buffer src (b64m_decoded_len src.length + 1)
      dectbl with
  | .ok out => .ok (out, out.length)
  | .error e => .error e

/-! ## Basic facts about the padding scan -/

set_option maxRecDepth 8192

lemma leadPad_le_length (l : List Nat) : leadPad l ≤ l.length := by
  induction l with
  | nil => simp [leadPad]
  | cons c rest ih =>
      unfold leadPad
      split
      · simp only [List.length_cons]
        omega
      · simp

lemma padCount_le_length (l : List Nat) : padCount l ≤ l.length := by
  unfold padCount
  simpa using leadPad_le_length l.reverse

/-! ## C5: encoded-length formula -/

/-- C5: for every input length `n`, `b64m_encoded_len n` is four times
the 3-byte group count `⌈n / 3⌉` whenever that group count is at most
`SIZE_MAX / 4`, and is the overflow indicator `SIZE_MAX` otherwise;
in particular `b64m_encoded_len` maps `0, 1, 2, 3, 4` to
`0, 4, 4, 4, 8`. -/
theorem c5_encoded_len :
    (∀ n, (n + 2) / 3 ≤ SIZE_MAX / 4 →
        b64m_encoded_len n = 4 * ((n + 2) / 3)) ∧
    (∀ n, (n + 2) / 3 > SIZE_MAX / 4 → b64m_encoded_len n = SIZE_MAX) ∧
    b64m_encoded_len 0 = 0 ∧ b64m_encoded_len 1 = 4 ∧
    b64m_encoded_len 2 = 4 ∧ b64m_encoded_len 3 = 4 ∧
    b64m_encoded_len 4 = 8 := by
  refine ⟨?_, ?_, by decide, by decide, by decide, by decide, by decide⟩ <;>
    · intro n h
      simp only [b64m_encoded_len, SIZE_MAX] at h ⊢
      split_ifs with h1 h2 <;> omega

/-- Witness for C5 at a small input and at an overflowing one. -/
theorem c5_encoded_len_witness :
    b64m_encoded_len 5 = 4 * ((5 + 2) / 3) ∧
    b64m_encoded_len (2 ^ 64) = SIZE_MAX :=
  ⟨c5_encoded_len.1 5 (by decide), c5_encoded_len.2.1 (2 ^ 64) (by decide)⟩

/-! ## C7: encode capacity enforcement -/

lemma encoded_len_le_size_max (n : Nat) : b64m_encoded_len n ≤ SIZE_MAX := by
  simp only [b64m_encoded_len, SIZE_MAX]
  split_ifs <;> omega

/-- C7 counterexample: at input length `3 * 2 ^ 62 - 2` (the smallest
length at which `b64m_encoded_len` reports overflow, representable in
`size_t`) the capacity threshold `b64m_encoded_len + 1` wraps to 0 in
`size_t`, so even a zero-capacity destination is not rejected with
`insufficientSpace` — the code proceeds to write — although the
capacity 0 is smaller than `b64m_encoded_len + 1`, where the claim
asserts the call fails without writing. -/
theorem c7_counterexample :
    b64m_encode_to_buffer (List.replicate (3 * 2 ^ 62 - 2) 0) 0
      BASE64MIX_STDENC ≠ .error .insufficientSpace ∧
    (0 : Nat) < b64m_encoded_len
      (List.replicate (3 * 2 ^ 62 - 2) 0 : List Nat).length + 1 := by
  have hlen : (List.replicate (3 * 2 ^ 62 - 2) 0 : List Nat).length =
      3 * 2 ^ 62 - 2 := List.length_replicate _ _
  constructor
  · unfold b64m_encode_to_buffer
    rw [hlen, if_neg (by decide), if_neg (by decide)]
    exact fun hc => Except.noConfusion hc
  · omega

/-- C7 (amended): for every input length at which `b64m_encoded_len`
does not report overflow, every destination capacity smaller than
`b64m_encoded_len + 1` makes the buffer-based encoder fail with
`insufficientSpace`; the check is the first action of the function, so
nothing has been written to the destination when it fires.  (When
`b64m_encoded_len` returns `SIZE_MAX`, the `size_t` threshold wraps to
0 and the check never fires.) -/
theorem c7_encode_capacity (src : List Nat) (dstlen : Nat)
    (enctbl : List Nat)
    (hov : b64m_encoded_len src.length ≠ SIZE_MAX)
    (h : dstlen < b64m_encoded_len src.length + 1) :
    b64m_encode_to_buffer src dstlen enctbl = .error .insufficientSpace := by
  have hle := encoded_len_le_size_max src.length
  have hsm : SIZE_MAX = 2 ^ 64 - 1 := rfl
  unfold b64m_encode_to_buffer
  rw [Nat.mod_eq_of_lt (by omega), if_pos h]

/-- Witness for C7: a 4-byte destination cannot hold the encoding of 3
input bytes plus its terminator. -/
theorem c7_encode_capacity_witness :
    b64m_encode_to_buffer [1, 2, 3] 4 BASE64MIX_STDENC =
      .error .insufficientSpace :=
  c7_encode_capacity [1, 2, 3] 4 BASE64MIX_STDENC (by decide) (by decide)

/-! ## C4: decode validation order -/

/-- C4: decode validation short-circuits in order: an input length
congruent to 1 mod 4 fails with `invalidArgument` whatever the content,
the table and the capacity; otherwise an insufficient capacity fails
with `insufficientSpace` before the padding scan; otherwise the
trailing-`'='` scan fails with `invalidPadding` when more than two
trailing padding characters are present, or when padding is present
and the length is not a multiple of 4. -/
theorem c4_decode_validation_order :
    (∀ (src : List Nat) (dstlen : Nat) (dectbl : List Nat),
        src.length % 4 = 1 →
        b64m_decode_to_buffer src dstlen dectbl = .error .invalidArgument) ∧
    (∀ (src : List Nat) (dstlen : Nat) (dectbl : List Nat),
        src.length % 4 ≠ 1 →
        dstlen < b64m_decoded_len src.length + 1 →
        b64m_decode_to_buffer src dstlen dectbl = .error .insufficientSpace) ∧
    (∀ (src : List Nat) (dstlen : Nat) (dectbl : List Nat),
        src.length % 4 ≠ 1 →
        b64m_decoded_len src.length + 1 ≤ dstlen →
        (padCount src > 2 ∨ (padCount src ≠ 0 ∧ src.length % 4 ≠ 0)) →
        b64m_decode_to_buffer src dstlen dectbl = .error .invalidPadding) := by
  refine ⟨?_, ?_, ?_⟩
  · intro src dstlen dectbl h
    unfold b64m_decode_to_buffer
    rw [if_pos h]
  · intro src dstlen dectbl h1 h2
    unfold b64m_decode_to_buffer
    rw [if_neg h1, if_pos h2]
  · intro src dstlen dectbl h1 h2 h3
    have hle := padCount_le_length src
    unfold b64m_decode_to_buffer
    rw [if_neg h1, if_neg (by omega)]
    have hz : src.length ≠ 0 := by
      rcases h3 with h | ⟨h, _⟩ <;> omega
    rw [if_neg hz]
    split_ifs with h4 h5
    · rfl
    · rfl
    · exfalso
      rcases h3 with h | ⟨h, h'⟩
      · exact h4 h
      · exact h5 ⟨h, h'⟩

/-- Witness for C4: a lone character fails as invalid argument even
with zero capacity; a 2-character input with no room fails as
insufficient space; `"A==="` fails as invalid padding. -/
theorem c4_decode_validation_order_witness :
    b64m_decode_to_buffer [65] 0 BASE64MIX_STDDEC = .error .invalidArgument ∧
    b64m_decode_to_buffer [65, 66] 0 BASE64MIX_STDDEC =
      .error .insufficientSpace ∧
    b64m_decode_to_buffer [65, 61, 61, 61] 100 BASE64MIX_STDDEC =
      .error .invalidPadding :=
  ⟨c4_decode_validation_order.1 [65] 0 BASE64MIX_STDDEC (by decide),
   c4_decode_validation_order.2.1 [65, 66] 0 BASE64MIX_STDDEC (by decide)
     (by decide),
   c4_decode_validation_order.2.2 [65, 61, 61, 61] 100 BASE64MIX_STDDEC
     (by decide) (by decide) (by decide)⟩

/-! ## C2: decoding "-_" under the Mixed and Standard tables -/

/-- C2 counterexample: decoding the 2-character input `"-_"` (bytes
45, 95) with the Mixed reverse table does not succeed: both characters
are accepted by the table (62 and 63), but the 2-character tail check
rejects the input with `illegalSequence` because 63 has non-zero low 4
bits.  The claim asserts this call succeeds. -/
theorem c2_counterexample :
    b64m_decode_to_buffer [45, 95] 2 BASE64MIX_DEC =
      .error .illegalSequence := by rfl

/-- C2 (amended): decoding `"-_"` with the Mixed reverse table passes
character validation but fails the RFC 4648 low-bit check with
`illegalSequence`, while the Standard table rejects it earlier with
`invalidCharacter`; the Mixed table does accept URL-safe punctuation
that the Standard table rejects, e.g. `"-A"` decodes to the byte 0xF8
under Mixed but fails with `invalidCharacter` under Standard. -/
theorem c2_mixed_vs_standard :
    b64m_decode_to_buffer [45, 95] 2 BASE64MIX_DEC =
      .error .illegalSequence ∧
    b64m_decode_to_buffer [45, 95] 2 BASE64MIX_STDDEC =
      .error .invalidCharacter ∧
    b64m_decode_to_buffer [45, 65] 2 BASE64MIX_DEC = .ok [248] ∧
    b64m_decode_to_buffer [45, 65] 2 BASE64MIX_STDDEC =
      .error .invalidCharacter :=
  ⟨rfl, rfl, rfl, rfl⟩

/-! ## C9: table inversion invariants

The six facts below are the computational content; each is settled by
evaluating the constant tables. -/

lemma stddec_inverts_stdenc :
    ∀ i, i < 64 →
      BASE64MIX_STDDEC.getD (BASE64MIX_STDENC.getD i 0 % 256) 255 = i := by
  decide

lemma urldec_inverts_urlenc :
    ∀ i, i < 64 →
      BASE64MIX_URLDEC.getD (BASE64MIX_URLENC.getD i 0 % 256) 255 = i := by
  decide

lemma mixdec_inverts_stdenc :
    ∀ i, i < 64 →
      BASE64MIX_DEC.getD (BASE64MIX_STDENC.getD i 0 % 256) 255 = i := by
  decide

lemma mixdec_inverts_urlenc :
    ∀ i, i < 64 →
      BASE64MIX_DEC.getD (BASE64MIX_URLENC.getD i 0 % 256) 255 = i := by
  decide

lemma stddec_invalid_outside :
    ∀ c, c < 256 → c ∉ BASE64MIX_STDENC →
      BASE64MIX_STDDEC.getD c 255 = 255 := by
  decide

lemma urldec_invalid_outside :
    ∀ c, c < 256 → c ∉ BASE64MIX_URLENC →
      BASE64MIX_URLDEC.getD c 255 = 255 := by
  decide

lemma mixdec_invalid_outside :
    ∀ c, c < 256 → c ∉ BASE64MIX_STDENC → c ∉ BASE64MIX_URLENC →
      BASE64MIX_DEC.getD c 255 = 255 := by
  decide

/-- C9: the reverse tables invert the forward tables: for every index
`i < 64` the Standard reverse table maps `STDENC[i]` back to `i` and
the URL-safe reverse table maps `URLENC[i]` back to `i`; the Mixed
reverse table maps the symbols of both forward tables back to their
index, in particular both `'+'` (43) and `'-'` (45) to 62 and both
`'/'` (47) and `'_'` (95) to 63; and every byte value that is not a
symbol of the respective alphabet is marked with the invalid sentinel
255 in that reverse table. -/
theorem c9_table_inversion :
    (∀ i, i < 64 →
        BASE64MIX_STDDEC.getD (BASE64MIX_STDENC.getD i 0 % 256) 255 = i) ∧
    (∀ i, i < 64 →
        BASE64MIX_URLDEC.getD (BASE64MIX_URLENC.getD i 0 % 256) 255 = i) ∧
    (∀ i, i < 64 →
        BASE64MIX_DEC.getD (BASE64MIX_STDENC.getD i 0 % 256) 255 = i ∧
        BASE64MIX_DEC.getD (BASE64MIX_URLENC.getD i 0 % 256) 255 = i) ∧
    BASE64MIX_DEC.getD 43 255 = 62 ∧ BASE64MIX_DEC.getD 45 255 = 62 ∧
    BASE64MIX_DEC.getD 47 255 = 63 ∧ BASE64MIX_DEC.getD 95 255 = 63 ∧
    (∀ c, c < 256 → c ∉ BASE64MIX_STDENC →
        BASE64MIX_STDDEC.getD c 255 = 255) ∧
    (∀ c, c < 256 → c ∉ BASE64MIX_URLENC →
        BASE64MIX_URLDEC.getD c 255 = 255) ∧
    (∀ c, c < 256 → c ∉ BASE64MIX_STDENC → c ∉ BASE64MIX_URLENC →
        BASE64MIX_DEC.getD c 255 = 255) :=
  ⟨stddec_inverts_stdenc, urldec_inverts_urlenc,
   fun i hi => ⟨mixdec_inverts_stdenc i hi, mixdec_inverts_urlenc i hi⟩,
   rfl, rfl, rfl, rfl,
   stddec_invalid_outside, urldec_invalid_outside, mixdec_invalid_outside⟩

/-- Witness for C9: index 62 of each forward table round-trips, and
the non-symbol byte `'='` (61) is invalid in all three reverse
tables. -/
theorem c9_table_inversion_witness :
    BASE64MIX_STDDEC.getD (BASE64MIX_STDENC.getD 62 0 % 256) 255 = 62 ∧
    BASE64MIX_URLDEC.getD (BASE64MIX_URLENC.getD 62 0 % 256) 255 = 62 ∧
    BASE64MIX_DEC.getD (BASE64MIX_STDENC.getD 62 0 % 256) 255 = 62 ∧
    BASE64MIX_DEC.getD (BASE64MIX_URLENC.getD 62 0 % 256) 255 = 62 ∧
    BASE64MIX_STDDEC.getD 61 255 = 255 ∧
    BASE64MIX_URLDEC.getD 61 255 = 255 ∧
    BASE64MIX_DEC.getD 61 255 = 255 :=
  ⟨c9_table_inversion.1 62 (by decide),
   c9_table_inversion.2.1 62 (by decide),
   (c9_table_inversion.2.2.1 62 (by decide)).1,
   (c9_table_inversion.2.2.1 62 (by decide)).2,
   c9_table_inversion.2.2.2.2.2.2.2.1 61 (by decide) (by decide),
   c9_table_inversion.2.2.2.2.2.2.2.2.1 61 (by decide) (by decide),
   c9_table_inversion.2.2.2.2.2.2.2.2.2 61 (by decide) (by decide)
     (by decide)⟩

/-! ## C3: RFC 4648 tail checks -/

/-- C3: for a 3-character final tail whose characters are all accepted
by the table, the tail decodes to 2 bytes exactly when the last
decoded 6-bit value has zero low 2 bits, and fails with
`illegalSequence` otherwise; for a 2-character tail the analogue holds
with the low 4 bits and 1 byte; decoding `"/w=="` with the Standard
table succeeds and yields the single byte 0xFF; and for every input
passing the decoder's validation, the padding-stripped length is never
congruent to 1 mod 4, so a 1-character tail never remains. -/
theorem c3_tail_checks :
    (∀ (dectbl : List Nat) (c0 c1 c2 : Nat),
        dectbl.getD (c0 % 256) 255 ≤ 63 →
        dectbl.getD (c1 % 256) 255 ≤ 63 →
        dectbl.getD (c2 % 256) 255 ≤ 63 →
        (dectbl.getD (c2 % 256) 255 % 4 ≠ 0 →
          decodeTail dectbl [c0, c1, c2] = .error .illegalSequence) ∧
        (dectbl.getD (c2 % 256) 255 % 4 = 0 →
          ∃ bs, decodeTail dectbl [c0, c1, c2] = .ok bs ∧ bs.length = 2)) ∧
    (∀ (dectbl : List Nat) (c0 c1 : Nat),
        dectbl.getD (c0 % 256) 255 ≤ 63 →
        dectbl.getD (c1 % 256) 255 ≤ 63 →
        (dectbl.getD (c1 % 256) 255 % 16 ≠ 0 →
          decodeTail dectbl [c0, c1] = .error .illegalSequence) ∧
        (dectbl.getD (c1 % 256) 255 % 16 = 0 →
          ∃ bs, decodeTail dectbl [c0, c1] = .ok bs ∧ bs.length = 1)) ∧
    b64m_decode_to_buffer [47, 119, 61, 61] (b64m_decoded_len 4 + 1)
      BASE64MIX_STDDEC = .ok [255] ∧
    (∀ src : List Nat, src.length % 4 ≠ 1 → padCount src ≤ 2 →
        (padCount src ≠ 0 → src.length % 4 = 0) →
        (src.length - padCount src) % 4 ≠ 1) := by
  refine ⟨?_, ?_, by rfl, ?_⟩
  · intro dectbl c0 c1 c2 h0 h1 h2
    constructor
    · intro hbit
      simp only [decodeTail]
      rw [if_neg (by omega), if_pos hbit]
    · intro hbit
      simp only [decodeTail]
      rw [if_neg (by omega), if_neg (by omega)]
      exact ⟨_, rfl, rfl⟩
  · intro dectbl c0 c1 h0 h1
    constructor
    · intro hbit
      simp only [decodeTail]
      rw [if_neg (by omega), if_pos hbit]
    · intro hbit
      simp only [decodeTail]
      rw [if_neg (by omega), if_neg (by omega)]
      exact ⟨_, rfl, rfl⟩
  · intro src h1 h2 h3
    have hle := padCount_le_length src
    by_cases hp : padCount src = 0
    · omega
    · have := h3 hp
      omega

/-- Witness for C3: the 3-character tail `"AAB"` (last value 1) is
rejected, `"AAA"` is accepted; the 2-character tail `"AB"` is
rejected, `"AA"` is accepted; and the padded 4-character input
`"AA=="` leaves a 2-character remainder after stripping. -/
theorem c3_tail_checks_witness :
    decodeTail BASE64MIX_STDDEC [65, 65, 66] = .error .illegalSequence ∧
    (∃ bs, decodeTail BASE64MIX_STDDEC [65, 65, 65] = .ok bs ∧
      bs.length = 2) ∧
    decodeTail BASE64MIX_STDDEC [65, 66] = .error .illegalSequence ∧
    (∃ bs, decodeTail BASE64MIX_STDDEC [65, 65] = .ok bs ∧
      bs.length = 1) ∧
    ([65, 65, 61, 61] : List Nat).length -
      padCount [65, 65, 61, 61] ≠ 1 % 4 ∧
    (([65, 65, 61, 61] : List Nat).length -
      padCount [65, 65, 61, 61]) % 4 ≠ 1 :=
  ⟨(c3_tail_checks.1 BASE64MIX_STDDEC 65 65 66 (by decide) (by decide)
      (by decide)).1 (by decide),
   (c3_tail_checks.1 BASE64MIX_STDDEC 65 65 65 (by decide) (by decide)
      (by decide)).2 (by decide),
   (c3_tail_checks.2.1 BASE64MIX_STDDEC 65 66 (by decide) (by decide)).1
     (by decide),
   (c3_tail_checks.2.1 BASE64MIX_STDDEC 65 65 (by decide) (by decide)).2
     (by decide),
   by decide,
   c3_tail_checks.2.2.2 [65, 65, 61, 61] (by decide) (by decide)
     (fun _ => by decide)⟩

/-! ## C8: allocating wrappers refine the buffer engines -/

/-- C8: the allocating wrappers behave exactly like the buffer-based
engines run at the capacity computed by the length calculator: on
engine success they return the engine's output and replace the length
by the output length; on engine failure `b64m_decode` propagates the
engine's error unchanged (the allocation is released in C and the
length argument is untouched); and `b64m_encode` fails with the range
error exactly when the length calculator reports overflow. -/
theorem c8_alloc_wrappers :
    (∀ (src enctbl out : List Nat),
        b64m_encoded_len src.length ≠ SIZE_MAX →
        b64m_encode_to_buffer src (b64m_encoded_len src.length + 1)
          enctbl = .ok out →
        b64m_encode src enctbl = .ok (out, out.length)) ∧
    (∀ src enctbl : List Nat,
        b64m_encoded_len src.length = SIZE_MAX →
        b64m_encode src enctbl = .error .sizeOverflow) ∧
    (∀ (src dectbl out : List Nat),
        b64m_decode_to_buffer src (b64m_decoded_len src.length + 1)
          dectbl = .ok out →
        b64m_decode src dectbl = .ok (out, out.length)) ∧
    (∀ (src dectbl : List Nat) (e : B64Error),
        b64m_decode_to_buffer src (b64m_decoded_len src.length + 1)
          dectbl = .error e →
        b64m_decode src dectbl = .error e) := by
  refine ⟨?_, ?_, ?_, ?_⟩
  · intro src enctbl out h1 h2
    unfold b64m_encode
    rw [if_neg h1, h2]
  · intro src enctbl h
    unfold b64m_encode
    rw [if_pos h]
  · intro src dectbl out h
    unfold b64m_decode
    rw [h]
  · intro src dectbl e h
    unfold b64m_decode
    rw [h]

/-- Witness for C8: the wrapper agrees with the engine on the 2-byte
input `"hi"` and propagates the engine error on the invalid decode
input `"A"`. -/
theorem c8_alloc_wrappers_witness :
    b64m_encode [104, 105] BASE64MIX_STDENC = .ok ([97, 71, 107, 61], 4) ∧
    b64m_decode [97, 71, 107, 61] BASE64MIX_STDDEC = .ok ([104, 105], 2) ∧
    b64m_decode [65] BASE64MIX_STDDEC = .error .invalidArgument :=
  ⟨c8_alloc_wrappers.1 [104, 105] BASE64MIX_STDENC [97, 71, 107, 61]
     (by decide) (by rfl),
   c8_alloc_wrappers.2.2.1 [97, 71, 107, 61] BASE64MIX_STDDEC [104, 105]
     (by rfl),
   c8_alloc_wrappers.2.2.2 [65] BASE64MIX_STDDEC .invalidArgument
     (by rfl)⟩

/-! ## Decoding-loop structure: the 8-character loop is two
4-character groups, and derived length facts -/

lemma decodeBlocks_eq_decodeSimple (dectbl : List Nat) (l : List Nat) :
    decodeBlocks dectbl l = decodeSimple dectbl l := by
  suffices H : ∀ (n : Nat) (l : List Nat), l.length ≤ n →
      decodeBlocks dectbl l = decodeSimple dectbl l from H l.length l le_rfl
  intro n
  induction n with
  | zero =>
      intro l hl
      rcases l with _ | ⟨c0, rest⟩
      · rfl
      · simp at hl
  | succ n ih =>
      intro l hl
      rcases l with _ | ⟨c0, _ | ⟨c1, _ | ⟨c2, _ | ⟨c3, _ | ⟨c4, _ |
        ⟨c5, _ | ⟨c6, _ | ⟨c7, rest⟩⟩⟩⟩⟩⟩⟩⟩
      · rfl
      · rfl
      · rfl
      · rfl
      · rfl
      · rfl
      · rfl
      · rfl
      · have hrest : rest.length ≤ n := by
          simp only [List.length_cons] at hl; omega
        simp only [decodeBlocks, decodeSimple]
        rw [ih rest hrest]
        by_cases hA : dectbl.getD (c0 % 256) 255 > 63 ∨
            dectbl.getD (c1 % 256) 255 > 63 ∨
            dectbl.getD (c2 % 256) 255 > 63 ∨
            dectbl.getD (c3 % 256) 255 > 63
        all_goals by_cases hB : dectbl.getD (c4 % 256) 255 > 63 ∨
            dectbl.getD (c5 % 256) 255 > 63 ∨
            dectbl.getD (c6 % 256) 255 > 63 ∨
            dectbl.getD (c7 % 256) 255 > 63
        · rw [if_pos (by tauto), if_pos hA]
        · rw [if_pos (by tauto), if_pos hA]
        · rw [if_pos (by tauto), if_neg hA, if_pos hB]
        · rw [if_neg (by tauto), if_neg hA, if_neg hB]
          push_neg at hA hB
          obtain ⟨a0, a1, a2, a3⟩ := hA
          obtain ⟨a4, a5, a6, a7⟩ := hB
          cases hres : decodeSimple dectbl rest with
          | ok bytes =>
              simp only [Except.ok.injEq, List.cons.injEq, and_true]
              refine ⟨by omega, by omega, by omega, by omega, by omega,
                by omega⟩
          | error e => rfl

lemma decodeTail_length (dectbl l out : List Nat)
    (h : decodeTail dectbl l = .ok out) :
    out.length = if l.length = 3 then 2 else if l.length = 2 then 1 else 0 := by
  rcases l with _ | ⟨c0, _ | ⟨c1, _ | ⟨c2, _ | ⟨c3, rest⟩⟩⟩⟩
  · simp only [decodeTail, Except.ok.injEq] at h
    subst h; rfl
  · simp only [decodeTail, Except.ok.injEq] at h
    subst h; rfl
  · simp only [decodeTail] at h
    split_ifs at h with h1 h2
    simp only [Except.ok.injEq] at h
    subst h; rfl
  · simp only [decodeTail] at h
    split_ifs at h with h1 h2
    simp only [Except.ok.injEq] at h
    subst h; rfl
  · simp only [decodeTail, Except.ok.injEq] at h
    subst h
    simp only [List.length_cons, List.length_nil]
    rw [if_neg (by omega), if_neg (by omega)]

lemma decodeSimple_length (dectbl : List Nat) :
    ∀ l out : List Nat, decodeSimple dectbl l = .ok out →
    out.length = 3 * (l.length / 4) +
      (if l.length % 4 = 2 then 1 else if l.length % 4 = 3 then 2 else 0) := by
  suffices H : ∀ (n : Nat) (l : List Nat), l.length ≤ n → ∀ out,
      decodeSimple dectbl l = .ok out →
      out.length = 3 * (l.length / 4) +
        (if l.length % 4 = 2 then 1 else if l.length % 4 = 3 then 2 else 0)
    from fun l out h => H l.length l le_rfl out h
  intro n
  induction n with
  | zero =>
      intro l hl out h
      rcases l with _ | ⟨c0, rest⟩
      · simp only [decodeSimple, decodeTail, Except.ok.injEq] at h
        subst h; simp
      · simp at hl
  | succ n ih =>
      intro l hl out h
      rcases l with _ | ⟨c0, _ | ⟨c1, _ | ⟨c2, _ | ⟨c3, rest⟩⟩⟩⟩
      · simp only [decodeSimple, decodeTail, Except.ok.injEq] at h
        subst h; simp
      · simp only [decodeSimple, decodeTail, Except.ok.injEq] at h
        subst h; simp
      · have := decodeTail_length dectbl [c0, c1] out h
        simpa using this
      · have := decodeTail_length dectbl [c0, c1, c2] out h
        simpa using this
      · simp only [decodeSimple] at h
        split_ifs at h with hc
        cases hres : decodeSimple dectbl rest with
        | ok bytes =>
            rw [hres] at h
            simp only [Except.ok.injEq] at h
            subst h
            have hb := ih rest (by simp only [List.length_cons] at hl; omega)
              bytes hres
            simp only [List.length_cons]
            split_ifs at hb ⊢ <;> omega
        | error e =>
            rw [hres] at h
            simp at h

lemma decode_ok_anatomy (src : List Nat) (dstlen : Nat)
    (dectbl out : List Nat)
    (h : b64m_decode_to_buffer src dstlen dectbl = .ok out) :
    src.length % 4 ≠ 1 ∧ b64m_decoded_len src.length + 1 ≤ dstlen ∧
    padCount src ≤ 2 ∧ (padCount src ≠ 0 → src.length % 4 = 0) ∧
    decodeBlocks dectbl (src.take (src.length - padCount src)) = .ok out := by
  unfold b64m_decode_to_buffer at h
  split_ifs at h with h1 h2 h3 h4 h5
  · -- empty input: the early return is the same as running the loops
    have hnil : src = [] := List.eq_nil_of_length_eq_zero h3
    subst hnil
    simp only [Except.ok.injEq] at h
    subst h
    refine ⟨by simp, by omega, by simp [padCount, leadPad], ?_, rfl⟩
    intro hp
    simp [padCount, leadPad] at hp
  · exact ⟨h1, by omega, by omega, by tauto, h⟩

lemma decodeTail_error_kinds (dectbl l : List Nat) (e : B64Error)
    (h : decodeTail dectbl l = .error e) :
    e = .invalidCharacter ∨ e = .illegalSequence := by
  rcases l with _ | ⟨c0, _ | ⟨c1, _ | ⟨c2, _ | ⟨c3, rest⟩⟩⟩⟩
  · simp [decodeTail] at h
  · simp [decodeTail] at h
  · simp only [decodeTail] at h
    split_ifs at h <;> simp only [Except.error.injEq] at h <;> simp [← h]
  · simp only [decodeTail] at h
    split_ifs at h <;> simp only [Except.error.injEq] at h <;> simp [← h]
  · simp [decodeTail] at h

lemma decodeBlocks_error_kinds (dectbl : List Nat) :
    ∀ (l : List Nat) (e : B64Error), decodeBlocks dectbl l = .error e →
    e = .invalidCharacter ∨ e = .illegalSequence := by
  suffices H : ∀ (n : Nat) (l : List Nat), l.length ≤ n → ∀ e,
      decodeBlocks dectbl l = .error e →
      e = .invalidCharacter ∨ e = .illegalSequence
    from fun l e h => H l.length l le_rfl e h
  intro n
  induction n with
  | zero =>
      intro l hl e h
      rcases l with _ | ⟨c0, rest⟩
      · simp [decodeBlocks, decodeTail] at h
      · simp at hl
  | succ n ih =>
      intro l hl e h
      rcases l with _ | ⟨c0, _ | ⟨c1, _ | ⟨c2, _ | ⟨c3, _ | ⟨c4, _ |
        ⟨c5, _ | ⟨c6, _ | ⟨c7, rest⟩⟩⟩⟩⟩⟩⟩⟩
      · simp [decodeBlocks, decodeTail] at h
      · simp [decodeBlocks, decodeTail] at h
      · exact decodeTail_error_kinds dectbl _ e h
      · exact decodeTail_error_kinds dectbl _ e h
      · -- exactly 4 characters
        simp only [decodeBlocks] at h
        split_ifs at h with hc
        · simp only [Except.error.injEq] at h
          simp [← h]
        · cases hres : decodeTail dectbl [] with
          | ok bytes => rw [hres] at h; simp at h
          | error e' => simp [decodeTail] at hres
      · simp only [decodeBlocks] at h
        split_ifs at h with hc
        · simp only [Except.error.injEq] at h
          simp [← h]
        · cases hres : decodeTail dectbl [c4] with
          | ok bytes => rw [hres] at h; simp at h
          | error e' =>
              rw [hres] at h
              simp only [Except.error.injEq] at h
              subst h
              exact decodeTail_error_kinds dectbl _ e' hres
      · simp only [decodeBlocks] at h
        split_ifs at h with hc
        · simp only [Except.error.injEq] at h
          simp [← h]
        · cases hres : decodeTail dectbl [c4, c5] with
          | ok bytes => rw [hres] at h; simp at h
          | error e' =>
              rw [hres] at h
              simp only [Except.error.injEq] at h
              subst h
              exact decodeTail_error_kinds dectbl _ e' hres
      · simp only [decodeBlocks] at h
        split_ifs at h with hc
        · simp only [Except.error.injEq] at h
          simp [← h]
        · cases hres : decodeTail dectbl [c4, c5, c6] with
          | ok bytes => rw [hres] at h; simp at h
          | error e' =>
              rw [hres] at h
              simp only [Except.error.injEq] at h
              subst h
              exact decodeTail_error_kinds dectbl _ e' hres
      · simp only [decodeBlocks] at h
        split_ifs at h with hc
        · simp only [Except.error.injEq] at h
          simp [← h]
        · cases hres : decodeBlocks dectbl rest with
          | ok bytes => rw [hres] at h; simp at h
          | error e' =>
              rw [hres] at h
              simp only [Except.error.injEq] at h
              subst h
              exact ih rest (by simp only [List.length_cons] at hl; omega)
                e' hres

/-- C10: for every accepted decode input, the returned decoded length
is exactly `3 * (m / 4) + t`, where `m` is the input length minus the
number of trailing `'='` characters and `t` is 0, 1 or 2 according as
`m % 4` is 0, 2 or 3; moreover `m % 4 = 1` is unreachable.  The
formula mentions only the input length and the trailing padding
count, so the decoded length never depends on which symbols appear. -/
theorem c10_decoded_length (src : List Nat) (dstlen : Nat)
    (dectbl out : List Nat)
    (h : b64m_decode_to_buffer src dstlen dectbl = .ok out) :
    out.length = 3 * ((src.length - padCount src) / 4) +
      (if (src.length - padCount src) % 4 = 2 then 1
       else if (src.length - padCount src) % 4 = 3 then 2 else 0) ∧
    (src.length - padCount src) % 4 ≠ 1 := by
  obtain ⟨h1, h2, h3, h4, h5⟩ := decode_ok_anatomy src dstlen dectbl out h
  have hple := padCount_le_length src
  have htake : (src.take (src.length - padCount src)).length =
      src.length - padCount src := by
    simp only [List.length_take]
    omega
  rw [decodeBlocks_eq_decodeSimple] at h5
  have hlen := decodeSimple_length dectbl _ out h5
  rw [htake] at hlen
  refine ⟨hlen, ?_⟩
  by_cases hp : padCount src = 0
  · rw [hp]
    omega
  · have := h4 hp
    omega

/-- Witness for C10 on the decode of `"aGk="`, which strips one
padding character and returns 2 bytes. -/
theorem c10_decoded_length_witness :
    ([104, 105] : List Nat).length =
      3 * ((([97, 71, 107, 61] : List Nat).length -
        padCount [97, 71, 107, 61]) / 4) +
      (if (([97, 71, 107, 61] : List Nat).length -
          padCount [97, 71, 107, 61]) % 4 = 2 then 1
       else if (([97, 71, 107, 61] : List Nat).length -
          padCount [97, 71, 107, 61]) % 4 = 3 then 2 else 0) ∧
    (([97, 71, 107, 61] : List Nat).length -
      padCount [97, 71, 107, 61]) % 4 ≠ 1 :=
  c10_decoded_length [97, 71, 107, 61] 4 BASE64MIX_STDDEC [104, 105]
    (by rfl)

lemma padCount_replicate_A (n : Nat) :
    padCount (List.replicate n 65) = 0 := by
  unfold padCount
  rw [List.reverse_replicate]
  cases n with
  | zero => rfl
  | succ n => simp [List.replicate_succ, leadPad]

lemma decodeBlocks_replicate_A (k : Nat) :
    decodeBlocks BASE64MIX_STDDEC (List.replicate (8 * k) 65) =
      .ok (List.replicate (6 * k) 0) := by
  induction k with
  | zero => rfl
  | succ k ih =>
      rw [show 8 * (k + 1) = 8 + 8 * k by ring, List.replicate_add,
          show 6 * (k + 1) = 6 + 6 * k by ring, List.replicate_add,
          show (List.replicate 8 65 : List Nat) =
            [65, 65, 65, 65, 65, 65, 65, 65] from rfl,
          show (List.replicate 6 0 : List Nat) = [0, 0, 0, 0, 0, 0]
            from rfl]
      simp only [List.cons_append, List.nil_append]
      simp only [decodeBlocks]
      rw [if_neg (by decide), ih]
      rfl

/-- C6 counterexample: at input length `2 ^ 63` the `size_t` product
`srclen * 3` wraps around, so `b64m_decoded_len` returns `2 ^ 61`
although the decoder accepts the input (all `'A'`s, with a buffer of
the computed bound plus one) and returns `6 * 2 ^ 60 = 3 * 2 ^ 61`
bytes — more than the computed bound, so the bound-plus-one buffer is
not sufficient and the C code would overrun it. -/
theorem c6_counterexample :
    b64m_decode_to_buffer (List.replicate (2 ^ 63) 65) (2 ^ 61 + 1)
      BASE64MIX_STDDEC = .ok (List.replicate (6 * 2 ^ 60) 0) ∧
    b64m_decoded_len (List.replicate (2 ^ 63) 65 : List Nat).length <
      (List.replicate (6 * 2 ^ 60) 0 : List Nat).length := by
  have hlen : (List.replicate (2 ^ 63) 65 : List Nat).length = 2 ^ 63 :=
    List.length_replicate _ _
  constructor
  · unfold b64m_decode_to_buffer
    rw [hlen, padCount_replicate_A]
    rw [if_neg (by norm_num), if_neg (by norm_num [b64m_decoded_len]),
        if_neg (by norm_num), if_neg (by norm_num), if_neg (by simp),
        Nat.sub_zero, List.take_replicate,
        show (2 ^ 63 : Nat) ⊓ 2 ^ 63 = 8 * 2 ^ 60 by norm_num]
    exact decodeBlocks_replicate_A (2 ^ 60)
  · rw [hlen, List.length_replicate]
    norm_num [b64m_decoded_len]

/-- C6 (amended): `b64m_decoded_len` computes `(n * 3) / 4` in
`size_t` arithmetic, which agrees with exact arithmetic whenever
`n * 3` does not overflow; under that no-overflow condition every
accepted decode returns at most `b64m_decoded_len srclen` bytes, so a
buffer of the bound plus one terminator byte suffices; and the bound
plus one is the exact capacity threshold the decoder enforces: smaller
capacities fail with `insufficientSpace` (once the length check has
passed), and every `insufficientSpace` failure means the capacity was
below the threshold. -/
theorem c6_decoded_len_bound :
    (∀ n, n * 3 < 2 ^ 64 → b64m_decoded_len n = n * 3 / 4) ∧
    (∀ (src : List Nat) (dstlen : Nat) (dectbl out : List Nat),
        src.length * 3 < 2 ^ 64 →
        b64m_decode_to_buffer src dstlen dectbl = .ok out →
        out.length ≤ b64m_decoded_len src.length) ∧
    (∀ (src : List Nat) (dstlen : Nat) (dectbl : List Nat),
        src.length % 4 ≠ 1 → dstlen < b64m_decoded_len src.length + 1 →
        b64m_decode_to_buffer src dstlen dectbl =
          .error .insufficientSpace) ∧
    (∀ (src : List Nat) (dstlen : Nat) (dectbl : List Nat),
        b64m_decode_to_buffer src dstlen dectbl =
          .error .insufficientSpace →
        dstlen < b64m_decoded_len src.length + 1) := by
  refine ⟨?_, ?_, ?_, ?_⟩
  · intro n h
    unfold b64m_decoded_len
    rw [Nat.mod_eq_of_lt h]
  · intro src dstlen dectbl out hov h
    obtain ⟨h1, h2, h3, h4, h5⟩ := decode_ok_anatomy src dstlen dectbl out h
    have hple := padCount_le_length src
    have htake : (src.take (src.length - padCount src)).length =
        src.length - padCount src := by
      simp only [List.length_take]
      omega
    rw [decodeBlocks_eq_decodeSimple] at h5
    have hlen := decodeSimple_length dectbl _ out h5
    rw [htake] at hlen
    have hbound : b64m_decoded_len src.length = src.length * 3 / 4 := by
      unfold b64m_decoded_len
      rw [Nat.mod_eq_of_lt hov]
    rw [hbound]
    by_cases hp : padCount src = 0
    · rw [hp] at hlen
      split_ifs at hlen <;> omega
    · have h40 := h4 hp
      split_ifs at hlen <;> omega
  · intro src dstlen dectbl h1 h2
    unfold b64m_decode_to_buffer
    rw [if_neg h1, if_pos h2]
  · intro src dstlen dectbl h
    unfold b64m_decode_to_buffer at h
    split_ifs at h with h1 h2 h3 h4 h5
    all_goals first
      | exact h2
      | simp at h
      | (rcases decodeBlocks_error_kinds dectbl _ _ h with h' | h' <;>
          exact absurd h' (by decide))

/-- Witness for C6 (amended) at the 4-character input `"aGk="`: the
bound is 3, the decode returns 2 bytes, capacity 3 is rejected and the
rejection implies the capacity was below the threshold. -/
theorem c6_decoded_len_bound_witness :
    b64m_decoded_len 4 = 4 * 3 / 4 ∧
    ([104, 105] : List Nat).length ≤
      b64m_decoded_len ([97, 71, 107, 61] : List Nat).length ∧
    b64m_decode_to_buffer [97, 71, 107, 61] 3 BASE64MIX_STDDEC =
      .error .insufficientSpace ∧
    (3 : Nat) < b64m_decoded_len ([97, 71, 107, 61] : List Nat).length + 1 :=
  ⟨c6_decoded_len_bound.1 4 (by decide),
   c6_decoded_len_bound.2.1 [97, 71, 107, 61] 4 BASE64MIX_STDDEC
     [104, 105] (by decide) (by rfl),
   c6_decoded_len_bound.2.2.1 [97, 71, 107, 61] 3 BASE64MIX_STDDEC
     (by decide) (by decide),
   c6_decoded_len_bound.2.2.2 [97, 71, 107, 61] 3 BASE64MIX_STDDEC
     (by rfl)⟩

lemma encodeCore_length (enc : List Nat) : ∀ B : List Nat,
    (encodeCore enc B).length = 4 * (B.length / 3) +
      (if B.length % 3 = 0 then 0 else B.length % 3 + 1) := by
  suffices H : ∀ (n : Nat) (B : List Nat), B.length ≤ n →
      (encodeCore enc B).length = 4 * (B.length / 3) +
        (if B.length % 3 = 0 then 0 else B.length % 3 + 1)
    from fun B => H B.length B le_rfl
  intro n
  induction n with
  | zero =>
      intro B hB
      rcases B with _ | ⟨b0, rest⟩
      · rfl
      · simp at hB
  | succ n ih =>
      intro B hB
      rcases B with _ | ⟨b0, _ | ⟨b1, _ | ⟨b2, rest⟩⟩⟩
      · simp [encodeCore]
      · simp [encodeCore]
      · simp [encodeCore]
      · have := ih rest (by simp only [List.length_cons] at hB; omega)
        simp only [encodeCore, encodeBlock, List.cons_append,
          List.nil_append, List.length_cons, List.length_append] at this ⊢
        split_ifs at this ⊢ <;> omega

lemma encodeCore_sym (enc : List Nat) : ∀ (B : List Nat) (c : Nat),
    c ∈ encodeCore enc B → ∃ i, i < 64 ∧ c = enc.getD i 0 := by
  suffices H : ∀ (n : Nat) (B : List Nat), B.length ≤ n → ∀ c,
      c ∈ encodeCore enc B → ∃ i, i < 64 ∧ c = enc.getD i 0
    from fun B c h => H B.length B le_rfl c h
  intro n
  induction n with
  | zero =>
      intro B hB c hc
      rcases B with _ | ⟨b0, rest⟩
      · simp [encodeCore] at hc
      · simp at hB
  | succ n ih =>
      intro B hB c hc
      rcases B with _ | ⟨b0, _ | ⟨b1, _ | ⟨b2, rest⟩⟩⟩
      · simp [encodeCore] at hc
      · simp only [encodeCore, List.mem_cons, List.not_mem_nil,
          or_false] at hc
        rcases hc with rfl | rfl
        · exact ⟨_, by omega, rfl⟩
        · exact ⟨_, by omega, rfl⟩
      · simp only [encodeCore, List.mem_cons, List.not_mem_nil,
          or_false] at hc
        rcases hc with rfl | rfl | rfl
        · exact ⟨_, by omega, rfl⟩
        · exact ⟨_, by omega, rfl⟩
        · exact ⟨_, by omega, rfl⟩
      · simp only [encodeCore, encodeBlock, List.cons_append,
          List.nil_append, List.mem_cons] at hc
        rcases hc with rfl | rfl | rfl | rfl | hc
        · exact ⟨_, by omega, rfl⟩
        · exact ⟨_, by omega, rfl⟩
        · exact ⟨_, by omega, rfl⟩
        · exact ⟨_, by omega, rfl⟩
        · exact ih rest (by simp only [List.length_cons] at hB; omega) c hc

lemma encodeChunks_of_ne (enc : List Nat) (hne : enc ≠ BASE64MIX_STDENC) :
    ∀ B : List Nat, encodeChunks enc B = encodeCore enc B := by
  suffices H : ∀ (n : Nat) (B : List Nat), B.length ≤ n →
      encodeChunks enc B = encodeCore enc B
    from fun B => H B.length B le_rfl
  intro n
  induction n with
  | zero =>
      intro B hB
      rcases B with _ | ⟨b0, rest⟩
      · rfl
      · simp at hB
  | succ n ih =>
      intro B hB
      rcases B with _ | ⟨b0, _ | ⟨b1, _ | ⟨b2, rest⟩⟩⟩
      · rfl
      · simp [encodeChunks, encodeCore, if_neg hne]
      · simp [encodeChunks, encodeCore, if_neg hne]
      · simp only [encodeChunks, encodeCore]
        rw [ih rest (by simp only [List.length_cons] at hB; omega)]

lemma encodeChunks_std : ∀ B : List Nat,
    encodeChunks BASE64MIX_STDENC B = encodeCore BASE64MIX_STDENC B ++
      List.replicate ((3 - B.length % 3) % 3) 61 := by
  suffices H : ∀ (n : Nat) (B : List Nat), B.length ≤ n →
      encodeChunks BASE64MIX_STDENC B = encodeCore BASE64MIX_STDENC B ++
        List.replicate ((3 - B.length % 3) % 3) 61
    from fun B => H B.length B le_rfl
  intro n
  induction n with
  | zero =>
      intro B hB
      rcases B with _ | ⟨b0, rest⟩
      · rfl
      · simp at hB
  | succ n ih =>
      intro B hB
      rcases B with _ | ⟨b0, _ | ⟨b1, _ | ⟨b2, rest⟩⟩⟩
      · rfl
      · simp [encodeChunks, encodeCore]
      · simp [encodeChunks, encodeCore]
      · simp only [encodeChunks, encodeCore]
        rw [ih rest (by simp only [List.length_cons] at hB; omega)]
        simp only [List.length_cons, List.append_assoc]
        have : (rest.length + 1 + 1 + 1) % 3 = rest.length % 3 := by omega
        rw [this]

lemma leadPad_replicate_append (p : Nat) (ys : List Nat) :
    leadPad (List.replicate p 61 ++ ys) = p + leadPad ys := by
  induction p with
  | zero => simp
  | succ p ih => simp [List.replicate_succ, leadPad, ih]; omega

lemma padCount_append_61 (xs : List Nat) (p : Nat)
    (hx : ∀ c ∈ xs, c % 256 ≠ 61) :
    padCount (xs ++ List.replicate p 61) = p := by
  unfold padCount
  rw [List.reverse_append, List.reverse_replicate, leadPad_replicate_append]
  cases hxs : xs.reverse with
  | nil => simp [leadPad]
  | cons c t =>
      have hc : c ∈ xs := by
        rw [← List.mem_reverse, hxs]
        simp
      unfold leadPad
      rw [if_neg (hx c hc)]
      omega

lemma decodeSimple_encodeCore (enc dec : List Nat)
    (hinv : ∀ i, i < 64 → dec.getD (enc.getD i 0 % 256) 255 = i) :
    ∀ B : List Nat, (∀ b ∈ B, b < 256) →
    decodeSimple dec (encodeCore enc B) = .ok B := by
  suffices H : ∀ (n : Nat) (B : List Nat), B.length ≤ n →
      (∀ b ∈ B, b < 256) → decodeSimple dec (encodeCore enc B) = .ok B
    from fun B hB => H B.length B le_rfl hB
  intro n
  induction n with
  | zero =>
      intro B hn hB
      rcases B with _ | ⟨b0, rest⟩
      · rfl
      · simp at hn
  | succ n ih =>
      intro B hn hB
      rcases B with _ | ⟨b0, _ | ⟨b1, _ | ⟨b2, rest⟩⟩⟩
      · rfl
      · -- one leftover byte: two symbols, 2-character tail
        have hb0 : b0 < 256 := hB b0 (by simp)
        simp only [encodeCore, decodeSimple, decodeTail]
        rw [hinv _ (by omega), hinv _ (by omega)]
        rw [if_neg (by omega), if_neg (by omega)]
        simp only [Except.ok.injEq, List.cons.injEq, and_true]
        omega
      · -- two leftover bytes: three symbols, 3-character tail
        have hb0 : b0 < 256 := hB b0 (by simp)
        have hb1 : b1 < 256 := hB b1 (by simp)
        simp only [encodeCore, decodeSimple, decodeTail]
        rw [hinv _ (by omega), hinv _ (by omega), hinv _ (by omega)]
        rw [if_neg (by omega), if_neg (by omega)]
        simp only [Except.ok.injEq, List.cons.injEq, and_true]
        omega
      · -- full 3-byte group: one 4-symbol block, then recurse
        have hb0 : b0 < 256 := hB b0 (by simp)
        have hb1 : b1 < 256 := hB b1 (by simp)
        have hb2 : b2 < 256 := hB b2 (by simp)
        have hrest : ∀ b ∈ rest, b < 256 := fun b hb => hB b (by simp [hb])
        simp only [encodeCore, encodeBlock, List.cons_append,
          List.append_eq, List.nil_append, decodeSimple]
        rw [hinv _ (by omega), hinv _ (by omega), hinv _ (by omega),
          hinv _ (by omega)]
        rw [if_neg (by omega)]
        rw [ih rest (by simp only [List.length_cons] at hn; omega) hrest]
        simp only [Except.ok.injEq, List.cons.injEq, and_true]
        refine ⟨by omega, by omega, by omega⟩

lemma encode_to_buffer_ok (B : List Nat) (dstlen : Nat) (enc : List Nat)
    (h : b64m_encoded_len B.length + 1 ≤ dstlen) :
    b64m_encode_to_buffer B dstlen enc = .ok (encodeChunks enc B) := by
  unfold b64m_encode_to_buffer
  rw [if_neg (by omega)]
  split_ifs with h0
  · have : B = [] := List.eq_nil_of_length_eq_zero h0
    subst this
    rfl
  · rfl

lemma decode_core_padded (enc dec : List Nat) (B : List Nat) (p dl : Nat)
    (hinv : ∀ i, i < 64 → dec.getD (enc.getD i 0 % 256) 255 = i)
    (hsym61 : ∀ i, i < 64 → enc.getD i 0 % 256 ≠ 61)
    (hB : ∀ b ∈ B, b < 256)
    (hp : p ≤ 2)
    (hptotal : p ≠ 0 → ((encodeCore enc B).length + p) % 4 = 0)
    (hm1 : ((encodeCore enc B).length + p) % 4 ≠ 1)
    (hdl : b64m_decoded_len ((encodeCore enc B).length + p) + 1 ≤ dl) :
    b64m_decode_to_buffer (encodeCore enc B ++ List.replicate p 61) dl dec =
      .ok B := by
  have hlen : (encodeCore enc B ++ List.replicate p 61).length =
      (encodeCore enc B).length + p := by simp
  have hpad : padCount (encodeCore enc B ++ List.replicate p 61) = p :=
    padCount_append_61 _ _ (by
      intro c hc
      obtain ⟨i, hi, rfl⟩ := encodeCore_sym enc B c hc
      exact hsym61 i hi)
  unfold b64m_decode_to_buffer
  rw [hlen, if_neg hm1, if_neg (by omega)]
  by_cases hz : (encodeCore enc B).length + p = 0
  · have hn : B.length = 0 := by
      have := encodeCore_length enc B
      split_ifs at this <;> omega
    have hBnil : B = [] := List.eq_nil_of_length_eq_zero hn
    subst hBnil
    rw [if_pos hz]
  · rw [if_neg hz, hpad, if_neg (by omega), if_neg (by tauto)]
    have hsub : (encodeCore enc B).length + p - p =
        (encodeCore enc B).length := by omega
    rw [hsub, List.take_left, decodeBlocks_eq_decodeSimple]
    exact decodeSimple_encodeCore enc dec hinv B hB

lemma stdenc_not_pad :
    ∀ i, i < 64 → BASE64MIX_STDENC.getD i 0 % 256 ≠ 61 := by decide

lemma urlenc_not_pad :
    ∀ i, i < 64 → BASE64MIX_URLENC.getD i 0 % 256 ≠ 61 := by decide

lemma urlenc_ne_stdenc : BASE64MIX_URLENC ≠ BASE64MIX_STDENC := by decide

/-- C1: round-trip.  For every byte sequence `B`, encoding with the
Standard table (into a buffer of the required capacity) and decoding
the result with the Standard reverse table — or with the Mixed reverse
table — returns exactly `B`; the same round-trip holds for the
URL-safe encode and decode tables.  The decode buffer may have any
capacity of at least `b64m_decoded_len` of the encoded length plus
one. -/
theorem c1_roundtrip (B : List Nat) (hB : ∀ b ∈ B, b < 256) :
    (∀ (E : List Nat) (dl : Nat),
        b64m_encode_to_buffer B (b64m_encoded_len B.length + 1)
          BASE64MIX_STDENC = .ok E →
        b64m_decoded_len E.length + 1 ≤ dl →
        b64m_decode_to_buffer E dl BASE64MIX_STDDEC = .ok B ∧
        b64m_decode_to_buffer E dl BASE64MIX_DEC = .ok B) ∧
    (∀ (E : List Nat) (dl : Nat),
        b64m_encode_to_buffer B (b64m_encoded_len B.length + 1)
          BASE64MIX_URLENC = .ok E →
        b64m_decoded_len E.length + 1 ≤ dl →
        b64m_decode_to_buffer E dl BASE64MIX_URLDEC = .ok B) := by
  constructor
  · intro E dl hE hdl
    rw [encode_to_buffer_ok B _ _ le_rfl] at hE
    simp only [Except.ok.injEq] at hE
    subst hE
    rw [encodeChunks_std B] at hdl ⊢
    simp only [List.length_append, List.length_replicate] at hdl
    have hcl := encodeCore_length BASE64MIX_STDENC B
    have h4 : ((encodeCore BASE64MIX_STDENC B).length +
        (3 - B.length % 3) % 3) % 4 = 0 := by
      rw [hcl]; split_ifs <;> omega
    constructor
    · exact decode_core_padded _ _ B _ dl stddec_inverts_stdenc
        stdenc_not_pad hB (by omega) (fun _ => h4) (by omega) hdl
    · exact decode_core_padded _ _ B _ dl mixdec_inverts_stdenc
        stdenc_not_pad hB (by omega) (fun _ => h4) (by omega) hdl
  · intro E dl hE hdl
    rw [encode_to_buffer_ok B _ _ le_rfl] at hE
    simp only [Except.ok.injEq] at hE
    subst hE
    rw [encodeChunks_of_ne _ urlenc_ne_stdenc B] at hdl ⊢
    have hcl := encodeCore_length BASE64MIX_URLENC B
    have h0 : encodeCore BASE64MIX_URLENC B ++ List.replicate 0 61 =
        encodeCore BASE64MIX_URLENC B := by simp
    rw [← h0]
    exact decode_core_padded _ _ B 0 dl urldec_inverts_urlenc
      urlenc_not_pad hB (by omega) (by simp)
      (by rw [Nat.add_zero, hcl]; split_ifs <;> omega)
      (by rw [Nat.add_zero]; exact hdl)

/-- Witness for C1 on the 2-byte input `"hi"`, whose standard
encoding is `"aGk="` and URL-safe encoding is `"aGk"`. -/
theorem c1_roundtrip_witness :
    b64m_decode_to_buffer [97, 71, 107, 61] 4 BASE64MIX_STDDEC =
      .ok [104, 105] ∧
    b64m_decode_to_buffer [97, 71, 107, 61] 4 BASE64MIX_DEC =
      .ok [104, 105] ∧
    b64m_decode_to_buffer [97, 71, 107] 3 BASE64MIX_URLDEC =
      .ok [104, 105] :=
  ⟨((c1_roundtrip [104, 105] (by decide)).1 [97, 71, 107, 61] 4 (by rfl)
      (by decide)).1,
   ((c1_roundtrip [104, 105] (by decide)).1 [97, 71, 107, 61] 4 (by rfl)
      (by decide)).2,
   (c1_roundtrip [104, 105] (by decide)).2 [97, 71, 107] 3 (by rfl)
     (by decide)⟩
